import Mathlib

/-!
Verification development for the Bitbucket pull-request reviewer
(`src/pr-reviewer.js`).

Modelling conventions:
* JavaScript strings are modelled as `List Char`.
* `data.split('diff --git')` is modelled by `splitMarker` (the separator is
  consumed, leftmost-first, exactly as `String.prototype.split` does).
* The regex `/(?:a\/|b\/)([^\n]+)/` used to extract a filename is modelled by
  `matchFilename`: at each position, first try to match `a/` or `b/` followed
  by at least one non-newline character (the greedy capture `[^\n]+` takes the
  whole rest of the line); on failure advance one character.
* `String.prototype.trim` is modelled by `jsTrim` over the ECMAScript
  whitespace and line-terminator set.
* Fallible / asynchronous operations (HTTP fetches, the model call, the prompt
  file read) are modelled with `Except (List Char)`, the error being the
  message; `Promise.all` over the two fetches becomes `promiseAll2`.
-/

/-- The per-file section delimiter `'diff --git'` of `data.split('diff --git')`
(`src/pr-reviewer.js`, line 84). -/
def marker : List Char :=
  ['d', 'i', 'f', 'f', ' ', '-', '-', 'g', 'i', 't']

/-- Model of `data.split('diff --git')`: splits a string at every
(leftmost, non-overlapping) occurrence of `marker`, consuming the marker,
exactly like `String.prototype.split` with a string separator. -/
def splitMarker : List Char → List (List Char)
  | 'd' :: 'i' :: 'f' :: 'f' :: ' ' :: '-' :: '-' :: 'g' :: 'i' :: 't' :: rest =>
      [] :: splitMarker rest
  | c :: rest =>
      match splitMarker rest with
      | [] => [[c]]
      | s :: ss => (c :: s) :: ss
  | [] => [[]]

/-- Number of (leftmost, non-overlapping) occurrences of the `'diff --git'`
section delimiter in a raw diff text: the `N` of "N section headers". -/
def countMarker : List Char → Nat
  | 'd' :: 'i' :: 'f' :: 'f' :: ' ' :: '-' :: '-' :: 'g' :: 'i' :: 't' :: rest =>
      countMarker rest + 1
  | _ :: rest => countMarker rest
  | [] => 0

/-- Model of one attempt of the regex `/(?:a\/|b\/)([^\n]+)/` at the current
position: `a/` or `b/` must match here, followed by at least one non-newline
character; the greedy capture is the whole rest of the line. -/
def matchHere (s : List Char) : Option (List Char) :=
  if (['a', '/'].isPrefixOf s) || (['b', '/'].isPrefixOf s) then
    match s.drop 2 with
    | [] => none
    | d :: rest =>
        if d == '\n' then none
        else some (d :: rest.takeWhile (fun x => !(x == '\n')))
  else none

/-- Model of `fileDiff.match(/(?:a\/|b\/)([^\n]+)/)?.[1]`: the capture of the
first (leftmost) successful match, scanning one character at a time. -/
def matchFilename : List Char → Option (List Char)
  | [] => none
  | c :: rest =>
      match matchHere (c :: rest) with
      | some r => some r
      | none => matchFilename rest

/-- The ECMAScript whitespace/line-terminator set trimmed by
`String.prototype.trim`. -/
def isJsWhitespaceChar (c : Char) : Bool :=
  let n := c.toNat
  n == 0x9 || n == 0xa || n == 0xb || n == 0xc || n == 0xd || n == 0x20 ||
  n == 0xa0 || n == 0x1680 || (Nat.ble 0x2000 n && Nat.ble n 0x200a) ||
  n == 0x2028 || n == 0x2029 || n == 0x202f || n == 0x205f || n == 0x3000 ||
  n == 0xfeff

/-- Model of `fileDiff.trim()`: drop whitespace from both ends, preserve the
interior exactly. -/
def jsTrim (s : List Char) : List Char :=
  ((s.dropWhile isJsWhitespaceChar).reverse.dropWhile isJsWhitespaceChar).reverse

/-- The record produced for each file by `fetchPRDiffs`
(`src/pr-reviewer.js`, lines 86-89). -/
structure FileDiff where
  filename : List Char
  patch : List Char
  deriving DecidableEq

/-- The sentinel filename `'unknown'` (`src/pr-reviewer.js`, line 87). -/
def unknownName : List Char := "unknown".toList

/-- The map step of the parser: one split segment becomes one `FileDiff`
(`src/pr-reviewer.js`, lines 86-89). -/
def mkFileDiff (fileDiff : List Char) : FileDiff :=
  { filename := (matchFilename fileDiff).getD unknownName
    patch := jsTrim fileDiff }

/-- The diff parser of `fetchPRDiffs` (`src/pr-reviewer.js`, lines 83-89):
`data.split('diff --git').filter(Boolean).map(...)`.  `filter(Boolean)` keeps
exactly the non-empty segments (only `''` is falsy). -/
def parseDiffs (data : List Char) : List FileDiff :=
  ((splitMarker data).filter (fun s => !s.isEmpty)).map mkFileDiff

/-- The raw diff text of the spec's end-to-end scenario. -/
def c2raw : List Char :=
  "diff --git a/foo.js b/foo.js\n@@ ...\n+console.log('x')\n".toList

/-- A raw diff text with content before the first section header. -/
def c4raw : List Char := "x diff --git a/f.js b/f.js\n+1".toList

/-- The structured arguments of the forced `submitCodeReview` function call,
as decoded by `JSON.parse(functionCall.arguments)` (`src/pr-reviewer.js`,
lines 161-162); the schema on lines 110-128 declares all three fields
required. -/
structure ReviewArgs where
  review : List Char
  decision : List Char
  reason : List Char
  deriving DecidableEq

/-- The decision vocabulary declared in the function schema
(`src/pr-reviewer.js`, line 119): `["APPROVE", "APPROVE_WITH_COMMENTS",
"DECLINE"]`. -/
def validDecision (decision : List Char) : Bool :=
  decision == "APPROVE".toList ||
  decision == "APPROVE_WITH_COMMENTS".toList ||
  decision == "DECLINE".toList

/-- Model of line 165: formattedReview is the template string
`review + "\n\nDECISION: " + decision + "\nREASON: " + reason`. -/
def formatReview (args : ReviewArgs) : List Char :=
  args.review ++ "\n\nDECISION: ".toList ++ args.decision ++
    "\nREASON: ".toList ++ args.reason

/-- The value returned by `reviewAllDiffs` on success
(`src/pr-reviewer.js`, lines 168-172). -/
structure ReviewResult where
  reviewText : List Char
  decision : List Char
  reason : List Char
  deriving DecidableEq

/-- Model of lines 160-172 of `src/pr-reviewer.js`: once the structured
arguments are decoded, the result record is built unconditionally; the code
performs no check on `args.decision`. -/
def decodeAndFormat (args : ReviewArgs) : ReviewResult :=
  { reviewText := formatReview args
    decision := args.decision
    reason := args.reason }

/-- Model of line 100: the labeled block rendered for one file,
`"\n\n### File: " + filename + "\n" + three backticks + "diff\n" + patch +
"\n" + three backticks`. -/
def fileBlock (diff : FileDiff) : List Char :=
  "\n\n### File: ".toList ++ diff.filename ++ "\n\x60\x60\x60diff\n".toList ++
    diff.patch ++ "\n\x60\x60\x60".toList

/-- Model of lines 99-101: the blocks of all diffs joined with `'\n'`. -/
def buildFormattedDiffs (diffs : List FileDiff) : List Char :=
  List.intercalate "\n".toList (diffs.map fileBlock)

/-- The fixed decision-criteria text appended to the rules guide in the system
message (`src/pr-reviewer.js`, lines 139-142). -/
def decisionCriteria : List Char :=
  ("\n\nAfter reviewing the code, you must submit a code review with comments" ++
   " and a decision. Base your decision on the following criteria:" ++
   "\n- APPROVE: No significant issues found, code is ready to merge" ++
   "\n- APPROVE_WITH_COMMENTS: Minor issues that should be addressed but are not blocking" ++
   "\n- DECLINE: Critical issues or multiple moderate issues that must be fixed before merging").toList

/-- The system-message content (`src/pr-reviewer.js`, line 139). -/
def systemContent (bestPracticesPrompt : List Char) : List Char :=
  bestPracticesPrompt ++ decisionCriteria

/-- The user-message content (`src/pr-reviewer.js`, line 146). -/
def userContent (formattedDiffs : List Char) : List Char :=
  "Please review the following code changes from a pull request:\n".toList ++
    formattedDiffs

/-- Model of `reviewAllDiffs` (`src/pr-reviewer.js`, lines 96-177).  The
single outbound HTTP call (axios POST with the system and user messages) is
abstracted as `aiCall`, whose `Except` value represents the settled promise:
`Except.error` for a transport failure or an extraction/JSON failure, and
`Except.ok args` for a response whose function-call arguments decoded to
`args`.  On success the code formats and returns the result with no further
validation. -/
def reviewAllDiffsModel (diffs : List FileDiff) (bestPracticesPrompt : List Char)
    (aiCall : List Char → List Char → Except (List Char) ReviewArgs) :
    Except (List Char) ReviewResult :=
  match aiCall (systemContent bestPracticesPrompt)
      (userContent (buildFormattedDiffs diffs)) with
  | Except.error e => Except.error e
  | Except.ok args => Except.ok (decodeAndFormat args)

/-- Pull-request metadata used by `reviewPR` (`src/pr-reviewer.js`,
lines 189-191): `title`, `author.display_name`, optional `description`. -/
structure PRDetails where
  title : List Char
  authorDisplayName : List Char
  description : Option (List Char)
  deriving DecidableEq

/-- The value returned by `reviewPR` on success (`src/pr-reviewer.js`,
lines 203-208). -/
structure ReviewReport where
  prDetails : PRDetails
  review : List Char
  decision : List Char
  reason : List Char
  deriving DecidableEq

/-- Model of `Promise.all` over the two fetches (`src/pr-reviewer.js`,
lines 183-186): the pair is produced only when both settle fulfilled; if
either rejects, the whole rejects and the other result is discarded.  (When
both reject, the real rejection value depends on timing; the model fixes a
representative choice - the theorems below only use the fact that the result
is an error.) -/
def promiseAll2 {α β : Type} (x : Except (List Char) α) (y : Except (List Char) β) :
    Except (List Char) (α × β) :=
  match x, y with
  | Except.ok a, Except.ok b => Except.ok (a, b)
  | Except.error e, _ => Except.error e
  | _, Except.error e => Except.error e

/-- Model of `fetchPRDiffs` (`src/pr-reviewer.js`, lines 74-94): the HTTP
response is abstracted as an `Except` over the raw diff text; on success it is
parsed, on failure the error is rethrown. -/
def fetchPRDiffsModel (response : Except (List Char) (List Char)) :
    Except (List Char) (List FileDiff) :=
  match response with
  | Except.error e => Except.error e
  | Except.ok data => Except.ok (parseDiffs data)

/-- Model of `reviewPR` (`src/pr-reviewer.js`, lines 180-213): a fan-out /
fan-in over the metadata fetch and the diff fetch via `Promise.all`, then one
model call, then assembly of the report.  Any failure propagates. -/
def reviewPRModel (detailsResp : Except (List Char) PRDetails)
    (diffResp : Except (List Char) (List Char))
    (aiCall : List Char → List Char → Except (List Char) ReviewArgs)
    (bestPracticesPrompt : List Char) : Except (List Char) ReviewReport :=
  match promiseAll2 detailsResp (fetchPRDiffsModel diffResp) with
  | Except.error e => Except.error e
  | Except.ok (prDetails, diffs) =>
      match reviewAllDiffsModel diffs bestPracticesPrompt aiCall with
      | Except.error e => Except.error e
      | Except.ok result =>
          Except.ok { prDetails := prDetails
                      review := result.reviewText
                      decision := result.decision
                      reason := result.reason }

/-- The required environment variables checked by the entry point
(`src/pr-reviewer.js`, lines 231-238). -/
def requiredEnvVars : List (List Char) :=
  ["BITBUCKET_USERNAME".toList, "BITBUCKET_APP_PASSWORD".toList,
   "BITBUCKET_WORKSPACE".toList, "BITBUCKET_REPO".toList,
   "PR_NUMBER".toList, "AI_API_KEY".toList]

/-- JavaScript falsiness of `process.env[name]`: the variable is missing when
it is undefined or the empty string (`!process.env[varName]`, line 240). -/
def jsFalsy : Option (List Char) → Bool
  | none => true
  | some s => s.isEmpty

/-- Model of line 240: the required variables whose value is falsy. -/
def missingEnvVars (env : List Char → Option (List Char)) : List (List Char) :=
  requiredEnvVars.filter (fun name => jsFalsy (env name))

/-- The error message of line 243:
`'Missing required environment variables: ' + missingEnvVars.join(', ')`. -/
def missingEnvMessage (missing : List (List Char)) : List Char :=
  "Missing required environment variables: ".toList ++
    List.intercalate ", ".toList missing

/-- The fixed message thrown by `loadPromptFromFile` when the prompt file
cannot be read (`src/pr-reviewer.js`, line 224); despite the inline comment,
no default prompt is returned. -/
def promptFileMessage : List Char := "PLEASE PROVIDE A PROMPT FILE".toList

/-- Model of the entry point (`src/pr-reviewer.js`, lines 229-256): first the
environment check, then the prompt-file read (`loadPromptFromFile`,
lines 216-226, whose failure is replaced by the fixed message), and only then
the pipeline (`reviewPR`, abstracted as `runPipeline` applied to the loaded
prompt - it performs all network activity). -/
def entryModel (env : List Char → Option (List Char))
    (promptFileRead : Except (List Char) (List Char))
    (runPipeline : List Char → Except (List Char) ReviewReport) :
    Except (List Char) ReviewReport :=
  if (missingEnvVars env).isEmpty then
    match promptFileRead with
    | Except.error _ => Except.error promptFileMessage
    | Except.ok promptText => runPipeline promptText
  else
    Except.error (missingEnvMessage (missingEnvVars env))

/-! Wrappers around the library facts about `List.IsPrefix` used below. -/

theorem isPre_iff {l₁ l₂ : List Char} : l₁.isPrefixOf l₂ = true ↔ l₁ <+: l₂ :=
  List.isPrefixOf_iff_prefix

theorem preTake {l₁ l₂ : List Char} : l₁ <+: l₂ ↔ l₁ = l₂.take l₁.length :=
  List.prefix_iff_eq_take

theorem preAppend (l₁ l₂ : List Char) : l₁ <+: l₁ ++ l₂ :=
  List.prefix_append l₁ l₂

theorem preConsCons {a b : Char} {l₁ l₂ : List Char} :
    a :: l₁ <+: b :: l₂ ↔ a = b ∧ l₁ <+: l₂ :=
  List.cons_prefix_cons

theorem isPre_false_of_not_pre {l₁ l₂ : List Char} (h : ¬ l₁ <+: l₂) :
    l₁.isPrefixOf l₂ = false := by
  cases hq : l₁.isPrefixOf l₂ with
  | false => rfl
  | true => exact absurd (isPre_iff.mp hq) h

theorem not_pre_of_isPre_false {l₁ l₂ : List Char} (h : l₁.isPrefixOf l₂ = false) :
    ¬ l₁ <+: l₂ := by
  intro hp
  rw [isPre_iff.mpr hp] at h
  cases h

/-! Helper lemmas about `splitMarker` and `countMarker`. -/

set_option maxHeartbeats 2000000 in
theorem splitMarker_ne_nil (s : List Char) : splitMarker s ≠ [] := by
  rw [splitMarker.eq_def]
  split
  · simp
  · rename_i c rest _
    cases splitMarker rest <;> simp
  · simp

theorem splitMarker_marker_append (r : List Char) :
    splitMarker (marker ++ r) = [] :: splitMarker r := rfl

theorem countMarker_marker_append (r : List Char) :
    countMarker (marker ++ r) = countMarker r + 1 := rfl

set_option maxHeartbeats 2000000 in
theorem splitMarker_cons_of_no_marker {c : Char} {r : List Char}
    (h : marker.isPrefixOf (c :: r) = false) :
    splitMarker (c :: r) =
      (c :: (splitMarker r).headD []) :: (splitMarker r).tail := by
  rw [splitMarker.eq_def]
  split
  · rename_i rest heq
    exfalso
    injection heq with h1 h2
    subst h1; subst h2
    simp [marker, List.isPrefixOf] at h
  · rename_i hne heq
    injection heq with h1 h2
    subst h1; subst h2
    cases hsm : splitMarker r with
    | nil => exact absurd hsm (splitMarker_ne_nil r)
    | cons s ss => simp
  · rename_i heq
    cases heq

set_option maxHeartbeats 2000000 in
theorem countMarker_cons_of_no_marker {c : Char} {r : List Char}
    (h : marker.isPrefixOf (c :: r) = false) :
    countMarker (c :: r) = countMarker r := by
  rw [countMarker.eq_def]
  split
  · rename_i rest heq
    exfalso
    injection heq with h1 h2
    subst h1; subst h2
    simp [marker, List.isPrefixOf] at h
  · rename_i hne heq
    injection heq with h1 h2
    subst h1; subst h2
    rfl
  · rename_i heq
    cases heq

theorem splitMarker_of_count_zero {s : List Char} (h : countMarker s = 0) :
    splitMarker s = [s] := by
  induction s with
  | nil => rfl
  | cons c r IH =>
    cases hp : marker.isPrefixOf (c :: r) with
    | true =>
      exfalso
      obtain ⟨t, ht⟩ := isPre_iff.mp hp
      rw [← ht, countMarker_marker_append] at h
      exact Nat.succ_ne_zero _ h
    | false =>
      have h' : countMarker r = 0 := by
        rw [countMarker_cons_of_no_marker hp] at h
        exact h
      rw [splitMarker_cons_of_no_marker hp, IH h']
      rfl

theorem splitMarker_append_of_no_marker {s t : List Char}
    (h : ∀ i, i < s.length → marker.isPrefixOf ((s ++ t).drop i) = false) :
    splitMarker (s ++ t) =
      (s ++ (splitMarker t).headD []) :: (splitMarker t).tail := by
  induction s with
  | nil =>
    cases hsm : splitMarker t with
    | nil => exact absurd hsm (splitMarker_ne_nil t)
    | cons u us => simp [hsm]
  | cons c s' IH =>
    have h0 : marker.isPrefixOf (c :: (s' ++ t)) = false := by
      simpa using h 0 (by simp)
    have hrest : ∀ i, i < s'.length → marker.isPrefixOf ((s' ++ t).drop i) = false := by
      intro i hi
      simpa using h (i + 1) (by simp [Nat.succ_lt_succ hi])
    rw [List.cons_append, splitMarker_cons_of_no_marker h0, IH hrest]
    simp

theorem countMarker_append_of_no_marker {s t : List Char}
    (h : ∀ i, i < s.length → marker.isPrefixOf ((s ++ t).drop i) = false) :
    countMarker (s ++ t) = countMarker t := by
  induction s with
  | nil => rfl
  | cons c s' IH =>
    have h0 : marker.isPrefixOf (c :: (s' ++ t)) = false := by
      simpa using h 0 (by simp)
    have hrest : ∀ i, i < s'.length → marker.isPrefixOf ((s' ++ t).drop i) = false := by
      intro i hi
      simpa using h (i + 1) (by simp [Nat.succ_lt_succ hi])
    rw [List.cons_append, countMarker_cons_of_no_marker h0, IH hrest]

theorem splitMarker_headD_pre (s : List Char) :
    (splitMarker s).headD [] <+: s := by
  induction s with
  | nil => exact List.nil_prefix
  | cons c r IH =>
    cases hp : marker.isPrefixOf (c :: r) with
    | true =>
      obtain ⟨t, ht⟩ := isPre_iff.mp hp
      rw [← ht, splitMarker_marker_append]
      exact List.nil_prefix
    | false =>
      rw [splitMarker_cons_of_no_marker hp]
      simp only [List.headD_cons]
      exact preConsCons.mpr ⟨rfl, IH⟩

theorem splitMarker_headD_mem (s : List Char) :
    (splitMarker s).headD [] ∈ splitMarker s := by
  cases hsm : splitMarker s with
  | nil => exact absurd hsm (splitMarker_ne_nil s)
  | cons a as => simp

theorem mem_splitMarker_no_occ_aux :
    ∀ (n : Nat) (s : List Char), s.length = n →
      ∀ u ∈ splitMarker s, ∀ i, marker.isPrefixOf (u.drop i) = false := by
  intro n
  induction n using Nat.strong_induction_on with
  | _ n IH =>
    intro s hn u hu i
    cases s with
    | nil =>
      have hs : splitMarker ([] : List Char) = [[]] := rfl
      rw [hs] at hu
      have : u = [] := by simpa using hu
      subst this
      simp [marker]
    | cons c r =>
      cases hp : marker.isPrefixOf (c :: r) with
      | true =>
        obtain ⟨t, ht⟩ := isPre_iff.mp hp
        rw [← ht, splitMarker_marker_append] at hu
        have hlen : t.length < n := by
          have h2 := congrArg List.length ht
          simp [marker] at h2
          have h3 : r.length + 1 = n := by simpa using hn
          omega
        rcases List.mem_cons.mp hu with h1 | h2
        · subst h1
          simp [marker]
        · exact IH t.length hlen t rfl u h2 i
      | false =>
        rw [splitMarker_cons_of_no_marker hp] at hu
        have hrlen : r.length < n := by
          subst hn
          simp
        rcases List.mem_cons.mp hu with h1 | h2
        · subst h1
          cases i with
          | zero =>
            simp only [List.drop_zero]
            apply isPre_false_of_not_pre
            intro hpre
            exact not_pre_of_isPre_false hp
              (hpre.trans (preConsCons.mpr ⟨rfl, splitMarker_headD_pre r⟩))
          | succ k =>
            have := IH r.length hrlen r rfl _ (splitMarker_headD_mem r) k
            simpa using this
        · exact IH r.length hrlen r rfl u (List.mem_of_mem_tail h2) i

theorem mem_splitMarker_no_occ {s u : List Char} (hu : u ∈ splitMarker s) :
    ∀ i, marker.isPrefixOf (u.drop i) = false :=
  mem_splitMarker_no_occ_aux s.length s rfl u hu

/-- A raw diff text made of `N` sections: each segment is preceded by the
`'diff --git'` delimiter. -/
def joinAll : List (List Char) → List Char
  | [] => []
  | s :: rest => marker ++ s ++ joinAll rest

/-- A well-formed section body: no `'diff --git'` occurrence starts inside it,
even one that would run into an immediately following delimiter. -/
def cleanSeg (s : List Char) : Prop :=
  ∀ i, i < s.length → marker.isPrefixOf ((s ++ marker).drop i) = false

instance cleanSegDecidable (s : List Char) : Decidable (cleanSeg s) := by
  unfold cleanSeg
  infer_instance

theorem cleanSeg_shift {s t : List Char} (hc : cleanSeg s)
    (ht : t = [] ∨ ∃ u, t = marker ++ u) :
    ∀ i, i < s.length → marker.isPrefixOf ((s ++ t).drop i) = false := by
  intro i hi
  apply isPre_false_of_not_pre
  intro hpre
  rw [List.drop_append_of_le_length (Nat.le_of_lt hi)] at hpre
  have hkey : marker <+: s.drop i ++ marker := by
    rcases ht with rfl | ⟨u, rfl⟩
    · have h1 : marker <+: s.drop i := by simpa using hpre
      exact h1.trans (preAppend _ _)
    · have hlen : marker.length ≤ (s.drop i ++ marker).length := by simp
      have hpre2 : marker <+: (s.drop i ++ marker) ++ u := by
        simpa [List.append_assoc] using hpre
      have h1 := preTake.mp hpre2
      rw [List.take_append_of_le_length hlen] at h1
      exact preTake.mpr h1
  have h3 := hc i hi
  rw [List.drop_append_of_le_length (Nat.le_of_lt hi)] at h3
  exact not_pre_of_isPre_false h3 hkey

theorem joinAll_cons_eq (s : List Char) (rest : List (List Char)) :
    joinAll (s :: rest) = marker ++ (s ++ joinAll rest) := by
  simp [joinAll]

theorem joinAll_shape (segs : List (List Char)) :
    joinAll segs = [] ∨ ∃ u, joinAll segs = marker ++ u := by
  cases segs with
  | nil => exact Or.inl rfl
  | cons a as => exact Or.inr ⟨a ++ joinAll as, joinAll_cons_eq a as⟩

theorem splitMarker_joinAll {segs : List (List Char)} (h : ∀ s ∈ segs, cleanSeg s) :
    splitMarker (joinAll segs) = [] :: segs := by
  induction segs with
  | nil => rfl
  | cons s rest IH =>
    have hclean : cleanSeg s := h s (List.mem_cons_self s rest)
    have hrest : ∀ x ∈ rest, cleanSeg x := fun x hx => h x (List.mem_cons_of_mem _ hx)
    rw [joinAll_cons_eq, splitMarker_marker_append,
      splitMarker_append_of_no_marker (cleanSeg_shift hclean (joinAll_shape rest)),
      IH hrest]
    simp

theorem countMarker_joinAll {segs : List (List Char)} (h : ∀ s ∈ segs, cleanSeg s) :
    countMarker (joinAll segs) = segs.length := by
  induction segs with
  | nil => rfl
  | cons s rest IH =>
    have hclean : cleanSeg s := h s (List.mem_cons_self s rest)
    have hrest : ∀ x ∈ rest, cleanSeg x := fun x hx => h x (List.mem_cons_of_mem _ hx)
    rw [joinAll_cons_eq, countMarker_marker_append,
      countMarker_append_of_no_marker (cleanSeg_shift hclean (joinAll_shape rest)),
      IH hrest]
    simp

/-! Helper lemmas about `jsTrim` and `matchFilename`. -/

theorem dropWhile_eq_drop (p : Char → Bool) (l : List Char) :
    ∃ n, l.dropWhile p = l.drop n := by
  induction l with
  | nil => exact ⟨0, rfl⟩
  | cons c r IH =>
    cases hp : p c with
    | true =>
      obtain ⟨n, hn⟩ := IH
      exact ⟨n + 1, by simp [List.dropWhile_cons, hp, hn]⟩
    | false => exact ⟨0, by simp [List.dropWhile_cons, hp]⟩

theorem trimEnd_pre (x : List Char) :
    (x.reverse.dropWhile isJsWhitespaceChar).reverse <+: x := by
  obtain ⟨m, hm⟩ := dropWhile_eq_drop isJsWhitespaceChar x.reverse
  rw [hm]
  have h1 : x.reverse.drop m <:+ x.reverse := List.drop_suffix m x.reverse
  have h2 := List.reverse_prefix.mpr h1
  rwa [List.reverse_reverse] at h2

theorem jsTrim_pre_drop (s : List Char) :
    ∃ n, jsTrim s <+: s.drop n := by
  obtain ⟨n, hn⟩ := dropWhile_eq_drop isJsWhitespaceChar s
  refine ⟨n, ?_⟩
  unfold jsTrim
  rw [hn]
  exact trimEnd_pre (s.drop n)

theorem matchHere_some {s r : List Char} (h : matchHere s = some r) :
    r ≠ [] ∧ '\n' ∉ r := by
  unfold matchHere at h
  split at h
  · split at h
    · cases h
    · rename_i d rest
      split at h
      · cases h
      · rename_i hd
        injection h with h1
        subst h1
        refine ⟨by simp, ?_⟩
        intro hmem
        rcases List.mem_cons.mp hmem with h2 | h2
        · rw [← h2] at hd
          simp at hd
        · have := List.mem_takeWhile_imp h2
          simp at this
  · cases h

theorem matchFilename_some {s r : List Char} (h : matchFilename s = some r) :
    r ≠ [] ∧ '\n' ∉ r := by
  induction s with
  | nil => simp [matchFilename] at h
  | cons c rest IH =>
    rw [matchFilename] at h
    cases hm : matchHere (c :: rest) with
    | some r' =>
      rw [hm] at h
      injection h with h1
      subst h1
      exact matchHere_some hm
    | none =>
      rw [hm] at h
      exact IH h

theorem mem_parseDiffs {data : List Char} {fd : FileDiff} (h : fd ∈ parseDiffs data) :
    ∃ seg, seg ∈ splitMarker data ∧ seg ≠ [] ∧ fd = mkFileDiff seg := by
  unfold parseDiffs at h
  obtain ⟨seg, hseg, hfd⟩ := List.mem_map.mp h
  obtain ⟨hmem, hne⟩ := List.mem_filter.mp hseg
  refine ⟨seg, hmem, ?_, hfd.symm⟩
  simpa using hne

/-! The claims. -/

/-- Claim C1 (counterexample).  The claim states that a decoded `decision`
outside {APPROVE, APPROVE_WITH_COMMENTS, DECLINE} makes the review call fail
rather than return a ReviewDecision.  On the code this is false: with the
model call succeeding and arguments decoding to decision `"MAYBE"`,
`reviewAllDiffs` returns a successful result carrying the out-of-vocabulary
decision verbatim. -/
theorem c1_counterexample :
    reviewAllDiffsModel [] []
        (fun _ _ => Except.ok { review := ['r'], decision := "MAYBE".toList, reason := ['x'] }) =
      Except.ok { reviewText := "r\n\nDECISION: MAYBE\nREASON: x".toList
                  decision := "MAYBE".toList
                  reason := ['x'] } ∧
    validDecision "MAYBE".toList = false :=
  ⟨rfl, by decide⟩

/-- Claim C1 (amended).  `reviewAllDiffs` performs no vocabulary check on the
decoded `decision`: whenever the model call succeeds, the decision string of
the structured arguments is returned verbatim to the caller (whatever its
value), and only a failure of the call itself (transport, extraction or JSON
error) makes the review call fail. -/
theorem c1_amended (diffs : List FileDiff) (prompt : List Char)
    (args : ReviewArgs) (e : List Char) :
    reviewAllDiffsModel diffs prompt (fun _ _ => Except.ok args) =
      Except.ok (decodeAndFormat args) ∧
    (decodeAndFormat args).decision = args.decision ∧
    reviewAllDiffsModel diffs prompt (fun _ _ => Except.error e) = Except.error e :=
  ⟨rfl, rfl, rfl⟩

/-- Claim C2 (counterexample).  On the spec's end-to-end raw diff text the
parser yields one FileDiff, but its filename is not `"foo.js"`: the capture
`[^\n]+` is greedy, so the whole rest of the header line is captured. -/
theorem c2_counterexample :
    (parseDiffs c2raw).length = 1 ∧
    (parseDiffs c2raw).map (fun fd => fd.filename) ≠ ["foo.js".toList] := by
  constructor
  · decide
  · decide

/-- Claim C2 (amended).  The parser extracts as filename everything from the
first `a/` or `b/` occurrence (followed by a non-newline character) to the end
of that line - the earlier `a/` pre-change occurrence wins, not the `b/` one -
so the example raw text yields exactly one FileDiff whose filename is
`"foo.js b/foo.js"`; when no such occurrence exists the sentinel `"unknown"`
is assigned. -/
theorem c2_amended :
    parseDiffs c2raw =
      [{ filename := "foo.js b/foo.js".toList
         patch := "a/foo.js b/foo.js\n@@ ...\n+console.log('x')".toList }] ∧
    parseDiffs "diff --git nothing here".toList =
      [{ filename := unknownName, patch := "nothing here".toList }] := by
  constructor
  · decide
  · decide

/-- Claim C3 (counterexample).  A non-empty raw input with no `diff --git`
section header does not produce an empty sequence: `"hello"` (zero headers)
produces one FileDiff. -/
theorem c3_counterexample :
    countMarker "hello".toList = 0 ∧ parseDiffs "hello".toList ≠ [] := by
  constructor
  · decide
  · decide

/-- Claim C3 (amended).  On input with no `diff --git` section header, the
parser returns the empty sequence only for the empty string; a non-empty
header-less input yields exactly one FileDiff built from the whole input. -/
theorem c3_amended (data : List Char) (h : countMarker data = 0) :
    parseDiffs data = if data.isEmpty then [] else [mkFileDiff data] := by
  unfold parseDiffs
  rw [splitMarker_of_count_zero h]
  cases data with
  | nil => rfl
  | cons c r => rfl

/-- Witness for C3 (amended) at the concrete input `"hello"`. -/
theorem c3_amended_witness :
    countMarker "hello".toList = 0 ∧
    parseDiffs "hello".toList =
      if ("hello".toList).isEmpty then [] else [mkFileDiff "hello".toList] :=
  ⟨by decide, c3_amended "hello".toList (by decide)⟩

/-- Claim C4 (counterexample).  Content preceding the first header is not
discarded: a raw text with one `diff --git` header and non-empty leading
content produces two FileDiff records, not one. -/
theorem c4_counterexample :
    countMarker c4raw = 1 ∧ (parseDiffs c4raw).length = 2 := by
  constructor
  · decide
  · decide

/-- Claim C4 (amended).  For a raw text that is exactly a concatenation of N
`diff --git` headers each followed by a non-empty section body (no occurrence
of the delimiter starting inside a body), the parser produces exactly N
FileDiff records in header order; non-empty content before the first header
is kept as an extra leading record rather than discarded (see the
counterexample), and empty segments are dropped. -/
theorem c4_amended (segs : List (List Char))
    (h : ∀ s ∈ segs, s ≠ [] ∧ cleanSeg s) :
    countMarker (joinAll segs) = segs.length ∧
    parseDiffs (joinAll segs) = segs.map mkFileDiff := by
  have hclean : ∀ s ∈ segs, cleanSeg s := fun s hs => (h s hs).2
  refine ⟨countMarker_joinAll hclean, ?_⟩
  unfold parseDiffs
  rw [splitMarker_joinAll hclean]
  have h2 : List.filter (fun s => !s.isEmpty) segs = segs :=
    List.filter_eq_self.mpr (fun a ha => by simpa using (h a ha).1)
  have hfilter : List.filter (fun s => !s.isEmpty) ([] :: segs) = segs := by
    simpa using h2
  rw [hfilter]

/-- Witness for C4 (amended): two sections, parsed into two records in
order. -/
theorem c4_amended_witness :
    countMarker (joinAll [" a/f.js b/f.js\n+1".toList, " a/g.js b/g.js\n+2".toList]) = 2 ∧
    parseDiffs (joinAll [" a/f.js b/f.js\n+1".toList, " a/g.js b/g.js\n+2".toList]) =
      [" a/f.js b/f.js\n+1".toList, " a/g.js b/g.js\n+2".toList].map mkFileDiff :=
  c4_amended _ (by decide)

/-- Claim C5 (counterexample).  The stored patch does not start with the
`diff --git` marker: the split consumes the delimiter, so on the spec's
example the single FileDiff's patch fails the claimed invariant. -/
theorem c5_counterexample :
    (parseDiffs c2raw).map (fun fd => marker.isPrefixOf fd.patch) = [false] := by
  decide

/-- Claim C5 (amended).  Every FileDiff's patch is the per-file text with the
`diff --git` marker consumed by the split (it begins with the remainder of
the header line), trimmed of leading/trailing whitespace; in particular no
patch ever starts with the `diff --git` marker. -/
theorem c5_amended (data : List Char) (fd : FileDiff) (h : fd ∈ parseDiffs data) :
    marker.isPrefixOf fd.patch = false := by
  obtain ⟨seg, hseg, hne, rfl⟩ := mem_parseDiffs h
  show marker.isPrefixOf (jsTrim seg) = false
  obtain ⟨n, hpre⟩ := jsTrim_pre_drop seg
  apply isPre_false_of_not_pre
  intro hmp
  exact not_pre_of_isPre_false (mem_splitMarker_no_occ hseg n) (hmp.trans hpre)

/-- Witness for C5 (amended) at the spec's example raw text. -/
theorem c5_amended_witness :
    marker.isPrefixOf
      (mkFileDiff " a/foo.js b/foo.js\n@@ ...\n+console.log('x')\n".toList).patch = false :=
  c5_amended c2raw _ (by decide)

/-- Claim C6 (confirmed).  The returned reviewText is exactly the review
body, a blank line, then `DECISION: <decision>` and `REASON: <reason>` each on
its own line; on the spec's example it is exactly
`"Looks fine\n\nDECISION: APPROVE\nREASON: no issues"`. -/
theorem c6_review_text (args : ReviewArgs) :
    (decodeAndFormat args).reviewText =
      args.review ++ "\n\nDECISION: ".toList ++ args.decision ++
        "\nREASON: ".toList ++ args.reason ∧
    (decodeAndFormat { review := "Looks fine".toList, decision := "APPROVE".toList,
                       reason := "no issues".toList }).reviewText =
      "Looks fine\n\nDECISION: APPROVE\nREASON: no issues".toList :=
  ⟨rfl, by decide⟩

/-- Claim C7 (confirmed).  The two fetches are joined fan-out/fan-in with no
partial-result path: whenever either the metadata fetch or the diff fetch
fails, `reviewPR` fails (no report is produced), regardless of the other
fetch's result, which is discarded. -/
theorem c7_fan_in_no_partial (detailsResp : Except (List Char) PRDetails)
    (diffResp : Except (List Char) (List Char))
    (aiCall : List Char → List Char → Except (List Char) ReviewArgs)
    (prompt : List Char) (e : List Char)
    (h : detailsResp = Except.error e ∨ diffResp = Except.error e) :
    ∃ msg, reviewPRModel detailsResp diffResp aiCall prompt = Except.error msg := by
  rcases h with rfl | rfl
  · cases diffResp with
    | ok raw => exact ⟨e, rfl⟩
    | error e2 => exact ⟨e, rfl⟩
  · cases detailsResp with
    | ok d => exact ⟨e, rfl⟩
    | error e2 => exact ⟨e2, rfl⟩

/-- Witness for C7: a succeeded metadata fetch and a failed diff fetch. -/
theorem c7_fan_in_no_partial_witness :
    ∃ msg, reviewPRModel
        (Except.ok { title := [], authorDisplayName := [], description := none })
        (Except.error "boom".toList)
        (fun _ _ => Except.ok { review := [], decision := [], reason := [] }) [] =
      Except.error msg :=
  c7_fan_in_no_partial _ _ _ _ "boom".toList (Or.inr rfl)

/-- Claim C8 (confirmed).  Configuration errors are fatal and precede
everything else: with any required environment variable missing, the entry
point fails with the missing-variables message no matter what the file read
or the pipeline would do (so before any network activity); and with the
environment complete, a prompt-file read failure aborts the run with the
fixed message `PLEASE PROVIDE A PROMPT FILE` - no default review guide is
substituted and the pipeline is never reached. -/
theorem c8_config_fatal (env : List Char → Option (List Char))
    (promptFileRead : Except (List Char) (List Char))
    (runPipeline : List Char → Except (List Char) ReviewReport) (e : List Char) :
    (missingEnvVars env ≠ [] →
      entryModel env promptFileRead runPipeline =
        Except.error (missingEnvMessage (missingEnvVars env))) ∧
    (missingEnvVars env = [] → promptFileRead = Except.error e →
      entryModel env promptFileRead runPipeline = Except.error promptFileMessage) := by
  constructor
  · intro hne
    cases hm : (missingEnvVars env).isEmpty with
    | true => exact absurd (by simpa using hm) hne
    | false => simp [entryModel, hm]
  · intro hmiss hfr
    subst hfr
    simp [entryModel, hmiss]

/-- Witness for C8: an empty environment fails with the missing-variables
message; a complete environment with a failing file read fails with the fixed
prompt-file message. -/
theorem c8_config_fatal_witness :
    entryModel (fun _ => none) (Except.ok []) (fun _ => Except.error []) =
      Except.error (missingEnvMessage (missingEnvVars (fun _ => none))) ∧
    entryModel (fun _ => some ['x']) (Except.error ['e']) (fun _ => Except.error []) =
      Except.error promptFileMessage :=
  ⟨(c8_config_fatal (fun _ => none) (Except.ok []) (fun _ => Except.error []) []).1
      (by decide),
   (c8_config_fatal (fun _ => some ['x']) (Except.error ['e']) (fun _ => Except.error [])
      ['e']).2 (by decide) rfl⟩

/-- Claim C9 (confirmed).  The prompt-building step is a pure function of the
FileDiff sequence: equal inputs yield byte-identical rendered output. -/
theorem c9_builder_pure (xs ys : List FileDiff) (h : xs = ys) :
    buildFormattedDiffs xs = buildFormattedDiffs ys := by
  rw [h]

/-- Witness for C9 at a concrete one-file input. -/
theorem c9_builder_pure_witness :
    buildFormattedDiffs [{ filename := "foo.js".toList, patch := "+1".toList }] =
      buildFormattedDiffs [{ filename := "foo.js".toList, patch := "+1".toList }] :=
  c9_builder_pure _ _ rfl

/-- Claim C10 (confirmed).  Every FileDiff produced by the parser has a
filename that is either the sentinel `"unknown"` or a non-empty string with
no newline character. -/
theorem c10_filename_invariant (data : List Char) (fd : FileDiff)
    (h : fd ∈ parseDiffs data) :
    fd.filename = unknownName ∨ (fd.filename ≠ [] ∧ '\n' ∉ fd.filename) := by
  obtain ⟨seg, hseg, hne, rfl⟩ := mem_parseDiffs h
  cases hm : matchFilename seg with
  | none =>
    left
    show (matchFilename seg).getD unknownName = unknownName
    rw [hm]
    rfl
  | some r =>
    right
    have h2 := matchFilename_some hm
    show (matchFilename seg).getD unknownName ≠ [] ∧
      '\n' ∉ (matchFilename seg).getD unknownName
    rw [hm]
    exact h2

/-- Witness for C10 at the spec's example raw text. -/
theorem c10_filename_invariant_witness :
    (mkFileDiff " a/foo.js b/foo.js\n@@ ...\n+console.log('x')\n".toList).filename =
        unknownName ∨
    ((mkFileDiff " a/foo.js b/foo.js\n@@ ...\n+console.log('x')\n".toList).filename ≠ [] ∧
      '\n' ∉ (mkFileDiff " a/foo.js b/foo.js\n@@ ...\n+console.log('x')\n".toList).filename) :=
  c10_filename_invariant c2raw _ (by decide)
